import Mathlib

/-!
Verification of the TTL-LRU weather cache of `weatherCachingAPI`
(`simulatedForecasting/main.go`; the realtime variant shares the identical
cache core).

Shallow embedding notes:
- `time.Time` instants and `time.Duration` are modelled as `Int` nanoseconds;
  `time.Since(t)` at instant `now` is `now - t`.
- `container/list` elements are heap nodes identified by pointer; we model
  pointer identity with a fresh `id : Nat` drawn from an allocation counter
  `nextId` held in the state.  `list.Remove(e)` / `list.MoveToFront(e)` act on
  the node `e` itself, which the model expresses by erasing the (unique)
  occurrence of `e` from the node list.
- The Go map `map[string]*list.Element` is modelled as an association list
  whose update/delete operations keep keys duplicate-free, matching Go map
  semantics; lookup order of a Go map is irrelevant to the cache logic.
- `float64` temperatures are opaque payload to the cache; they are modelled
  as `Int` (the cache never computes with them).
- The `sync.RWMutex` field `mu` is modelled separately (see `LockMode` below)
  since lock acquisition modes are the only lock facts the code fixes.
-/

namespace WeatherCache

/-- `CityWeatherData` from main.go: city, temperature, description, and the
`CacheTime` stamp placed by the data producer (`getCityWeatherData` /
`fetchWeatherFromAPI` set it to `time.Now()` at fetch time). -/
structure CityWeatherData where
  city : String
  temp : Int
  desc : String
  cacheTime : Int
deriving DecidableEq, Repr

/-- The Go zero value `CityWeatherData{}`. -/
def zeroWeather : CityWeatherData := ⟨"", 0, "", 0⟩

/-- `cacheItem` from main.go: the value stored in each list element. -/
structure cacheItem where
  city : String
  data : CityWeatherData
deriving DecidableEq, Repr

/-- A `container/list` element: a heap node with identity (`id`, standing for
the Go pointer) carrying a `cacheItem` value. -/
structure Elem where
  id : Nat
  item : cacheItem
deriving DecidableEq, Repr

/-- The `Cache` struct from main.go.  `orderedList` is the recency list with
the front at the head; `data` is the key index mapping a city to the list
element holding its entry; `nextId` is the allocation counter standing in for
the heap (fresh pointers). -/
structure Cache where
  data : List (String × Elem)
  orderedList : List Elem
  maxSize : Nat
  expiry : Int
  nextId : Nat
deriving DecidableEq, Repr

/-- Go map read `m[city]`. -/
def mapGet (m : List (String × Elem)) (k : String) : Option Elem :=
  (m.find? (fun p => p.1 == k)).map Prod.snd

/-- Go map delete `delete(m, k)`. -/
def mapDelete (m : List (String × Elem)) (k : String) : List (String × Elem) :=
  m.filter (fun p => !(p.1 == k))

/-- Go map write `m[k] = e` (replaces any previous binding of `k`). -/
def mapInsert (m : List (String × Elem)) (k : String) (e : Elem) :
    List (String × Elem) :=
  (k, e) :: mapDelete m k

/-- `list.MoveToFront(e)`: if the node `e` belongs to the list, unlink it and
relink it at the front; otherwise no-op (Go checks `e.list == l`). -/
def moveToFront (e : Elem) (l : List Elem) : List Elem :=
  if e ∈ l then e :: l.erase e else l

/-- `getCachedWeatherData(city)` from main.go, at clock instant `now`.
Returns the Go return value paired with the post state. -/
def getCachedWeatherData (now : Int) (city : String) (c : Cache) :
    (CityWeatherData × Bool) × Cache :=
  match mapGet c.data city with
  | none => ((zeroWeather, false), c)
  | some elem =>
    let l1 := moveToFront elem c.orderedList
    if now - elem.item.data.cacheTime < c.expiry then
      ((elem.item.data, true), { c with orderedList := l1 })
    else
      ((zeroWeather, false),
        { c with orderedList := l1.erase elem,
                 data := mapDelete c.data city })

/-- `evictOldest()` from main.go: remove the back of the recency list (if
any) and delete its city from the index. -/
def evictOldest (c : Cache) : Cache :=
  match c.orderedList.getLast? with
  | none => c
  | some oldest =>
    { c with orderedList := c.orderedList.dropLast,
             data := mapDelete c.data oldest.item.city }

/-- `updateCache(city, data)` from main.go: evict when the list already holds
`maxSize` or more nodes, then push a fresh node at the front and point the
index at it. -/
def updateCache (city : String) (d : CityWeatherData) (c : Cache) : Cache :=
  let c1 := if c.maxSize ≤ c.orderedList.length then evictOldest c else c
  let elem : Elem := ⟨c1.nextId, ⟨city, d⟩⟩
  { c1 with orderedList := elem :: c1.orderedList,
            data := mapInsert c1.data city elem,
            nextId := c1.nextId + 1 }

/-- A public cache operation: `Lookup` (`getCachedWeatherData`, with the
clock reading at the call) or `Insert` (`updateCache`). -/
inductive Op where
  | lookup (now : Int) (city : String)
  | insert (city : String) (d : CityWeatherData)
deriving DecidableEq, Repr

/-- Apply one operation to the cache state. -/
def applyOp (c : Cache) : Op → Cache
  | .lookup now city => (getCachedWeatherData now city c).2
  | .insert city d => updateCache city d c

/-- Run a sequence of operations. -/
def run (ops : List Op) (c : Cache) : Cache :=
  ops.foldl applyOp c

/-- The cache produced by `init()` in main.go, with configurable size and
expiry (the program uses `maxSize = 100`, `expiry = 30` minutes). -/
def initCache (maxSize : Nat) (expiry : Int) : Cache :=
  ⟨[], [], maxSize, expiry, 0⟩

/-- Number of entries in the key index. -/
def size (c : Cache) : Nat := c.data.length

/-- The keys carried by the recency list, front first. -/
def listKeys (c : Cache) : List String :=
  c.orderedList.map (fun e => e.item.city)

/-! ### Lock acquisition modes

`Cache.mu` is a `sync.RWMutex`.  The code fixes, statically, which mode each
public operation acquires; under Go's RWMutex semantics two holders exclude
each other unless both hold the read lock. -/

inductive LockMode where
  | sharedRead
  | exclusive
deriving DecidableEq, Repr

/-- `getCachedWeatherData` acquires `cache.mu.RLock()` — the shared read
lock. -/
def lookupLockMode : LockMode := LockMode.sharedRead

/-- `updateCache` acquires `cache.mu.Lock()` — the exclusive write lock. -/
def insertLockMode : LockMode := LockMode.exclusive

/-- Go `sync.RWMutex`: two critical sections are serialized against each
other exactly when at least one of them holds the write (exclusive) lock;
two read-lock holders may run concurrently. -/
def mutuallyExclusive (a b : LockMode) : Bool :=
  a == LockMode.exclusive || b == LockMode.exclusive

/-! ### Concrete sample data (used by counterexamples and witnesses) -/

/-- Sample payload for city "a" (cached at instant 0). -/
def wa : CityWeatherData := ⟨"a", 21, "Warm", 0⟩

/-- A second, fresher payload for city "a". -/
def wa2 : CityWeatherData := ⟨"a", 5, "Cold", 0⟩

/-- Sample payload for city "b". -/
def wb : CityWeatherData := ⟨"b", 12, "Cool", 0⟩

/-- A second payload for city "b". -/
def wb2 : CityWeatherData := ⟨"b", 33, "Hot", 0⟩

/-- A cache of capacity 2 (expiry 10) after inserting "a" then "b": both
present, "a" least recently used. -/
def twoKeyState : Cache :=
  run [Op.insert "a" wa, Op.insert "b" wb] (initCache 2 10)

/-- The cache as configured by `init()` (maxSize 100, expiry 30 minutes in
nanoseconds) after inserting key "a" twice in a row. -/
def doubleInsertState : Cache :=
  run [Op.insert "a" wa, Op.insert "a" wa2] (initCache 100 (30 * 60 * 1000000000))

/-- A one-entry cache (capacity 2, expiry 10, payload cached at instant 0). -/
def oneKeyState : Cache :=
  run [Op.insert "a" wa] (initCache 2 10)

/-! ### Association-list (Go map) lemmas -/

theorem mapGet_cons {p : String × Elem} {m : List (String × Elem)} {k : String} :
    mapGet (p :: m) k = if p.1 == k then some p.2 else mapGet m k := by
  unfold mapGet
  rw [List.find?_cons]
  by_cases h : p.1 == k <;> simp [h]

theorem mapGet_mem {m : List (String × Elem)} {k : String} {e : Elem}
    (h : mapGet m k = some e) : (k, e) ∈ m := by
  unfold mapGet at h
  cases hf : m.find? (fun p => p.1 == k) with
  | none => rw [hf] at h; simp at h
  | some p =>
    rw [hf] at h
    have hpe : p.2 = e := by simpa using h
    have hm : p ∈ m := List.mem_of_find?_eq_some hf
    have hk : p.1 = k := by
      have hp := List.find?_some hf
      simpa using hp
    have hpk : (k, e) = p := by
      rw [← hk, ← hpe]
    rw [hpk]
    exact hm

theorem mapGet_eq_none_iff {m : List (String × Elem)} {k : String} :
    mapGet m k = none ↔ ∀ p ∈ m, p.1 ≠ k := by
  unfold mapGet
  simp [List.find?_eq_none]

theorem mem_mapDelete {m : List (String × Elem)} {k : String} {p : String × Elem} :
    p ∈ mapDelete m k ↔ p ∈ m ∧ p.1 ≠ k := by
  unfold mapDelete
  simp [List.mem_filter]

theorem mapGet_mapDelete_self {m : List (String × Elem)} {k : String} :
    mapGet (mapDelete m k) k = none := by
  rw [mapGet_eq_none_iff]
  intro p hp
  exact (mem_mapDelete.mp hp).2

theorem mapGet_mapInsert_self {m : List (String × Elem)} {k : String} {e : Elem} :
    mapGet (mapInsert m k e) k = some e := by
  unfold mapInsert
  rw [mapGet_cons]
  simp

theorem keys_mapDelete_nodup {m : List (String × Elem)} {k : String}
    (h : (m.map Prod.fst).Nodup) : ((mapDelete m k).map Prod.fst).Nodup :=
  h.sublist ((List.filter_sublist m).map Prod.fst)

theorem keys_mapInsert_nodup {m : List (String × Elem)} {k : String} {e : Elem}
    (h : (m.map Prod.fst).Nodup) : ((mapInsert m k e).map Prod.fst).Nodup := by
  unfold mapInsert
  simp only [List.map_cons, List.nodup_cons]
  refine ⟨?_, keys_mapDelete_nodup h⟩
  intro hk
  simp only [List.mem_map] at hk
  obtain ⟨p, hp, hpk⟩ := hk
  exact (mem_mapDelete.mp hp).2 hpk

theorem mapDelete_eq_self {m : List (String × Elem)} {k : String}
    (h : ∀ p ∈ m, p.1 ≠ k) : mapDelete m k = m := by
  unfold mapDelete
  refine List.filter_eq_self.mpr ?_
  intro p hp
  simpa using h p hp

theorem length_mapDelete_add_one {m : List (String × Elem)} {k : String}
    (hnd : (m.map Prod.fst).Nodup) (h : mapGet m k ≠ none) :
    (mapDelete m k).length + 1 = m.length := by
  induction m with
  | nil => simp [mapGet] at h
  | cons p m ih =>
    simp only [List.map_cons, List.nodup_cons] at hnd
    by_cases hk : p.1 = k
    · have hrest : mapDelete m k = m := by
        refine mapDelete_eq_self ?_
        intro q hq hqk
        apply hnd.1
        rw [hk, ← hqk]
        exact List.mem_map_of_mem Prod.fst hq
      have hhead : mapDelete (p :: m) k = mapDelete m k := by
        unfold mapDelete
        rw [List.filter_cons]
        simp [hk]
      rw [hhead, hrest]
      simp
    · have hhead : mapDelete (p :: m) k = p :: mapDelete m k := by
        unfold mapDelete
        rw [List.filter_cons]
        simp [hk]
      have hget : mapGet m k ≠ none := by
        rw [mapGet_cons] at h
        simpa [hk] using h
      rw [hhead]
      simp only [List.length_cons]
      rw [ih hnd.2 hget]

/-! ### The structural invariant

Every state the program builds satisfies `Inv`: list node ids are distinct
(nodes are distinct heap objects), every index entry points to a node that is
linked into the recency list, the index has no duplicate keys (it is a Go
map), an index entry for `k` holds a node whose item carries city `k`, and
all allocated node ids are below the allocation counter. -/

def Inv (c : Cache) : Prop :=
  (c.orderedList.map Elem.id).Nodup ∧
  (∀ p ∈ c.data, p.2 ∈ c.orderedList) ∧
  (c.data.map Prod.fst).Nodup ∧
  (∀ p ∈ c.data, p.2.item.city = p.1) ∧
  (∀ e ∈ c.orderedList, e.id < c.nextId)

instance (c : Cache) : Decidable (Inv c) := by
  unfold Inv
  infer_instance

theorem inv_initCache (m : Nat) (E : Int) : Inv (initCache m E) := by
  refine ⟨?_, ?_, ?_, ?_, ?_⟩ <;> simp [initCache]

theorem nodup_orderedList {c : Cache} (hInv : Inv c) : c.orderedList.Nodup :=
  hInv.1.of_map Elem.id

theorem elem_mem_of_mapGet {c : Cache} {k : String} {e : Elem} (hInv : Inv c)
    (h : mapGet c.data k = some e) : e ∈ c.orderedList :=
  hInv.2.1 (k, e) (mapGet_mem h)

theorem city_eq_of_mapGet {c : Cache} {k : String} {e : Elem} (hInv : Inv c)
    (h : mapGet c.data k = some e) : e.item.city = k :=
  hInv.2.2.2.1 (k, e) (mapGet_mem h)

theorem size_le_length {c : Cache} (hInv : Inv c) :
    c.data.length ≤ c.orderedList.length := by
  have hdataNodup : c.data.Nodup := hInv.2.2.1.of_map Prod.fst
  have hsndNodup : (c.data.map Prod.snd).Nodup := by
    refine hdataNodup.map_on ?_
    intro p hp q hq hpq
    have h1 : p.2.item.city = p.1 := hInv.2.2.2.1 p hp
    have h2 : q.2.item.city = q.1 := hInv.2.2.2.1 q hq
    have hfst : p.1 = q.1 := by rw [← h1, ← h2, hpq]
    exact List.inj_on_of_nodup_map hInv.2.2.1 hp hq hfst
  have hsub : c.data.map Prod.snd ⊆ c.orderedList := by
    intro e he
    simp only [List.mem_map] at he
    obtain ⟨p, hp, rfl⟩ := he
    exact hInv.2.1 p hp
  calc c.data.length = (c.data.map Prod.snd).length := (List.length_map _ _).symm
    _ ≤ c.orderedList.length := (List.subperm_of_subset hsndNodup hsub).length_le

/-! ### Branch lemmas for the two operations -/

theorem getCached_absent {now : Int} {city : String} {c : Cache}
    (h : mapGet c.data city = none) :
    getCachedWeatherData now city c = ((zeroWeather, false), c) := by
  unfold getCachedWeatherData
  rw [h]

theorem getCached_hit {now : Int} {city : String} {c : Cache} {e : Elem}
    (h : mapGet c.data city = some e)
    (hv : now - e.item.data.cacheTime < c.expiry) :
    getCachedWeatherData now city c =
      ((e.item.data, true), { c with orderedList := moveToFront e c.orderedList }) := by
  unfold getCachedWeatherData
  rw [h]
  simp [hv]

theorem getCached_expired {now : Int} {city : String} {c : Cache} {e : Elem}
    (h : mapGet c.data city = some e)
    (hv : ¬ now - e.item.data.cacheTime < c.expiry) :
    getCachedWeatherData now city c =
      ((zeroWeather, false),
        { c with orderedList := (moveToFront e c.orderedList).erase e,
                 data := mapDelete c.data city }) := by
  unfold getCachedWeatherData
  rw [h]
  simp [hv]

theorem moveToFront_of_mem {e : Elem} {l : List Elem} (h : e ∈ l) :
    moveToFront e l = e :: l.erase e := by
  unfold moveToFront
  simp [h]

theorem perm_moveToFront {e : Elem} {l : List Elem} (h : e ∈ l) :
    List.Perm l (moveToFront e l) := by
  rw [moveToFront_of_mem h]
  exact List.perm_cons_erase h

theorem length_moveToFront (e : Elem) (l : List Elem) :
    (moveToFront e l).length = l.length := by
  by_cases h : e ∈ l
  · exact (perm_moveToFront h).length_eq.symm
  · simp [moveToFront, h]

theorem evictOldest_maxSize (c : Cache) : (evictOldest c).maxSize = c.maxSize := by
  unfold evictOldest
  cases c.orderedList.getLast? <;> simp

theorem evictOldest_expiry (c : Cache) : (evictOldest c).expiry = c.expiry := by
  unfold evictOldest
  cases c.orderedList.getLast? <;> simp

theorem evictOldest_nextId (c : Cache) : (evictOldest c).nextId = c.nextId := by
  unfold evictOldest
  cases c.orderedList.getLast? <;> simp

theorem length_evictOldest (c : Cache) :
    (evictOldest c).orderedList.length = c.orderedList.length - 1 := by
  unfold evictOldest
  cases h : c.orderedList.getLast? with
  | none =>
    have : c.orderedList = [] := by
      cases hl : c.orderedList with
      | nil => rfl
      | cons a l =>
        rw [hl] at h
        rw [List.getLast?_eq_getLast_of_ne_nil (List.cons_ne_nil a l)] at h
        cases h
    simp [this]
  | some oldest => simp [List.length_dropLast]

/-! ### Invariant preservation -/

theorem inv_evictOldest {c : Cache} (hInv : Inv c) : Inv (evictOldest c) := by
  unfold evictOldest
  cases h : c.orderedList.getLast? with
  | none => exact hInv
  | some oldest =>
    have hdec : c.orderedList.dropLast ++ [oldest] = c.orderedList :=
      List.dropLast_append_getLast? oldest (Option.mem_def.mpr h)
    refine ⟨?_, ?_, ?_, ?_, ?_⟩
    · exact hInv.1.sublist ((List.dropLast_sublist c.orderedList).map Elem.id)
    · intro p hp
      have hmem := mem_mapDelete.mp hp
      have hcity : p.2.item.city = p.1 := hInv.2.2.2.1 p hmem.1
      have hin : p.2 ∈ c.orderedList := hInv.2.1 p hmem.1
      rw [← hdec] at hin
      rcases List.mem_append.mp hin with hl | hr
      · exact hl
      · exfalso
        have : p.2 = oldest := by simpa using hr
        exact hmem.2 (by rw [← hcity, this])
    · exact keys_mapDelete_nodup hInv.2.2.1
    · intro p hp
      exact hInv.2.2.2.1 p (mem_mapDelete.mp hp).1
    · intro e he
      exact hInv.2.2.2.2 e ((List.dropLast_sublist c.orderedList).subset he)

theorem inv_updateCache {c : Cache} (hInv : Inv c) (city : String)
    (d : CityWeatherData) : Inv (updateCache city d c) := by
  unfold updateCache
  set c1 := if c.maxSize ≤ c.orderedList.length then evictOldest c else c with hc1
  have hInv1 : Inv c1 := by
    rw [hc1]
    split
    · exact inv_evictOldest hInv
    · exact hInv
  refine ⟨?_, ?_, ?_, ?_, ?_⟩
  · simp only [List.map_cons, List.nodup_cons]
    refine ⟨?_, hInv1.1⟩
    intro hmem
    simp only [List.mem_map] at hmem
    obtain ⟨e, he, hid⟩ := hmem
    exact absurd hid (Nat.ne_of_lt (hInv1.2.2.2.2 e he))
  · intro p hp
    unfold mapInsert at hp
    rcases List.mem_cons.mp hp with hhead | htail
    · rw [hhead]
      exact List.mem_cons_self _ _
    · exact List.mem_cons_of_mem _ (hInv1.2.1 p (mem_mapDelete.mp htail).1)
  · exact keys_mapInsert_nodup hInv1.2.2.1
  · intro p hp
    unfold mapInsert at hp
    rcases List.mem_cons.mp hp with hhead | htail
    · rw [hhead]
    · exact hInv1.2.2.2.1 p (mem_mapDelete.mp htail).1
  · intro e he
    rcases List.mem_cons.mp he with hhead | htail
    · rw [hhead]
      exact Nat.lt_succ_self _
    · exact Nat.lt_succ_of_lt (hInv1.2.2.2.2 e htail)

theorem inv_getCached {c : Cache} (hInv : Inv c) (now : Int) (city : String) :
    Inv ((getCachedWeatherData now city c).2) := by
  cases hget : mapGet c.data city with
  | none =>
    rw [getCached_absent hget]
    exact hInv
  | some e =>
    have he : e ∈ c.orderedList := elem_mem_of_mapGet hInv hget
    have hcity : e.item.city = city := city_eq_of_mapGet hInv hget
    by_cases hv : now - e.item.data.cacheTime < c.expiry
    · rw [getCached_hit hget hv]
      have hperm : List.Perm c.orderedList (moveToFront e c.orderedList) :=
        perm_moveToFront he
      refine ⟨?_, ?_, hInv.2.2.1, hInv.2.2.2.1, ?_⟩
      · exact hInv.1.perm (hperm.map Elem.id)
      · intro p hp
        exact (hperm.mem_iff).mp (hInv.2.1 p hp)
      · intro e' he'
        exact hInv.2.2.2.2 e' (hperm.mem_iff.mpr he')
    · rw [getCached_expired hget hv]
      have herase : (moveToFront e c.orderedList).erase e = c.orderedList.erase e := by
        rw [moveToFront_of_mem he]
        exact List.erase_cons_head e _
      refine ⟨?_, ?_, ?_, ?_, ?_⟩
      · rw [herase]
        exact hInv.1.sublist ((List.erase_sublist e c.orderedList).map Elem.id)
      · intro p hp
        have hmem := mem_mapDelete.mp hp
        have hin : p.2 ∈ c.orderedList := hInv.2.1 p hmem.1
        have hpc : p.2.item.city = p.1 := hInv.2.2.2.1 p hmem.1
        have hne : p.2 ≠ e := by
          intro hpe
          exact hmem.2 (by rw [← hpc, hpe, hcity])
        rw [herase]
        exact (List.mem_erase_of_ne hne).mpr hin
      · exact keys_mapDelete_nodup hInv.2.2.1
      · intro p hp
        exact hInv.2.2.2.1 p (mem_mapDelete.mp hp).1
      · intro e' he'
        rw [herase] at he'
        exact hInv.2.2.2.2 e' ((List.erase_sublist e c.orderedList).subset he')

theorem inv_applyOp {c : Cache} (hInv : Inv c) (op : Op) : Inv (applyOp c op) := by
  cases op with
  | lookup now city => exact inv_getCached hInv now city
  | insert city d => exact inv_updateCache hInv city d

/-! ### Configuration fields are never written by the operations -/

theorem updateCache_maxSize (city : String) (d : CityWeatherData) (c : Cache) :
    (updateCache city d c).maxSize = c.maxSize := by
  by_cases hb : c.maxSize ≤ c.orderedList.length <;>
    simp [updateCache, hb, evictOldest_maxSize]

theorem updateCache_expiry (city : String) (d : CityWeatherData) (c : Cache) :
    (updateCache city d c).expiry = c.expiry := by
  by_cases hb : c.maxSize ≤ c.orderedList.length <;>
    simp [updateCache, hb, evictOldest_expiry]

theorem getCached_maxSize (now : Int) (city : String) (c : Cache) :
    ((getCachedWeatherData now city c).2).maxSize = c.maxSize := by
  cases hget : mapGet c.data city with
  | none => rw [getCached_absent hget]
  | some e =>
    by_cases hv : now - e.item.data.cacheTime < c.expiry
    · rw [getCached_hit hget hv]
    · rw [getCached_expired hget hv]

theorem getCached_expiry (now : Int) (city : String) (c : Cache) :
    ((getCachedWeatherData now city c).2).expiry = c.expiry := by
  cases hget : mapGet c.data city with
  | none => rw [getCached_absent hget]
  | some e =>
    by_cases hv : now - e.item.data.cacheTime < c.expiry
    · rw [getCached_hit hget hv]
    · rw [getCached_expired hget hv]

theorem applyOp_maxSize (c : Cache) (op : Op) : (applyOp c op).maxSize = c.maxSize := by
  cases op with
  | lookup now city => exact getCached_maxSize now city c
  | insert city d => exact updateCache_maxSize city d c

/-! ### Length bounds -/

theorem length_getCached_le (now : Int) (city : String) (c : Cache) :
    ((getCachedWeatherData now city c).2).orderedList.length ≤
      c.orderedList.length := by
  cases hget : mapGet c.data city with
  | none =>
    rw [getCached_absent hget]
  | some e =>
    by_cases hv : now - e.item.data.cacheTime < c.expiry
    · rw [getCached_hit hget hv]
      simp [length_moveToFront]
    · rw [getCached_expired hget hv]
      calc ((moveToFront e c.orderedList).erase e).length
          ≤ (moveToFront e c.orderedList).length :=
            (List.erase_sublist e _).length_le
        _ = c.orderedList.length := length_moveToFront e _

theorem length_updateCache_le {c : Cache} (hmax : 1 ≤ c.maxSize)
    (hlen : c.orderedList.length ≤ c.maxSize) (city : String)
    (d : CityWeatherData) :
    (updateCache city d c).orderedList.length ≤ c.maxSize := by
  by_cases hb : c.maxSize ≤ c.orderedList.length
  · simp [updateCache, hb, length_evictOldest]
    omega
  · simp [updateCache, hb]
    omega

/-! ### Runs from the initial cache -/

theorem run_nil (c : Cache) : run [] c = c := rfl

theorem run_cons (op : Op) (ops : List Op) (c : Cache) :
    run (op :: ops) c = run ops (applyOp c op) := rfl

theorem run_append (ops1 ops2 : List Op) (c : Cache) :
    run (ops1 ++ ops2) c = run ops2 (run ops1 c) := by
  unfold run
  exact List.foldl_append applyOp c ops1 ops2

theorem run_preserves {c : Cache} (ops : List Op) (hInv : Inv c)
    (hmax : 1 ≤ c.maxSize) (hlen : c.orderedList.length ≤ c.maxSize) :
    Inv (run ops c) ∧ (run ops c).orderedList.length ≤ c.maxSize ∧
      (run ops c).maxSize = c.maxSize := by
  induction ops generalizing c with
  | nil => exact ⟨hInv, hlen, rfl⟩
  | cons op ops ih =>
    have hInv' := inv_applyOp hInv op
    have hmax' : 1 ≤ (applyOp c op).maxSize := by
      rw [applyOp_maxSize]
      exact hmax
    have hlen' : (applyOp c op).orderedList.length ≤ (applyOp c op).maxSize := by
      rw [applyOp_maxSize]
      cases op with
      | lookup now city => exact le_trans (length_getCached_le now city c) hlen
      | insert city d => exact length_updateCache_le hmax hlen city d
    obtain ⟨h1, h2, h3⟩ := ih hInv' hmax' hlen'
    rw [run_cons]
    refine ⟨h1, ?_, ?_⟩
    · rw [applyOp_maxSize c op] at h2
      exact h2
    · rw [h3, applyOp_maxSize]

/-! ### Claim C1 -/

/-- C1: the claim says Insert of an already-present key keeps `size()`
unchanged, effectively removes the key's prior node, does not count it as a
second entry toward `maxSize`, and evicts no other key.  The code violates
this: with capacity 2 holding "a" and "b", `updateCache "b" _` leaves the
old "b" node in the recency list (two "b" nodes), counts it toward the
capacity check, and therefore evicts "a"; the index size drops from 2 to
1. -/
theorem c1_insert_existing_key_bug :
    mapGet twoKeyState.data "b" ≠ none ∧
    size twoKeyState = 2 ∧
    size (updateCache "b" wb2 twoKeyState) = 1 ∧
    mapGet (updateCache "b" wb2 twoKeyState).data "a" = none ∧
    listKeys (updateCache "b" wb2 twoKeyState) = ["b", "b"] := by
  decide

/-! ### Claim C2 -/

/-- C2: the claim says the index keys and the recency-sequence keys are in
bijection (each index key occurs exactly once in the sequence) after any
sequence of operations from the empty cache.  The code violates this: with
the program's own configuration (maxSize 100), Insert("a") twice from empty
leaves the key "a" twice in the recency sequence while the index holds one
entry. -/
theorem c2_bijection_bug :
    size doubleInsertState = 1 ∧
    listKeys doubleInsertState = ["a", "a"] ∧
    (listKeys doubleInsertState).count "a" = 2 := by
  decide

/-! ### Claim C3 -/

/-- C3: for every finite sequence of Lookup and Insert operations starting
from the empty cache with maxSize > 0, after each operation completes the
cache size is at most maxSize — both as the number of index entries
(`size`) and as the length of the recency list. -/
theorem c3_capacity_invariant (m : Nat) (E : Int) (hm : 1 ≤ m)
    (ops : List Op) :
    size (run ops (initCache m E)) ≤ m ∧
    (run ops (initCache m E)).orderedList.length ≤ m := by
  have h := run_preserves (c := initCache m E) ops (inv_initCache m E) hm
    (by simp [initCache])
  exact ⟨le_trans (size_le_length h.1) h.2.1, h.2.1⟩

/-- Witness for C3 at a concrete input (capacity 2, three inserts). -/
theorem c3_capacity_invariant_witness :
    1 ≤ 2 ∧
    (size (run [Op.insert "a" wa, Op.insert "b" wb, Op.insert "b" wb2]
        (initCache 2 10)) ≤ 2 ∧
      (run [Op.insert "a" wa, Op.insert "b" wb, Op.insert "b" wb2]
        (initCache 2 10)).orderedList.length ≤ 2) :=
  ⟨by decide,
    c3_capacity_invariant 2 10 (by decide)
      [Op.insert "a" wa, Op.insert "b" wb, Op.insert "b" wb2]⟩

/-! ### Claim C4 -/

/-- C4: the claim says Insert evicts only if the key is not already present
(and the index is full).  The code violates the "only if": with capacity 2
holding "a" and "b" (both present), Insert of the already-present key "b"
evicts "a", because the eviction test looks only at the list length. -/
theorem c4_eviction_condition_bug :
    mapGet twoKeyState.data "b" ≠ none ∧
    mapGet twoKeyState.data "a" ≠ none ∧
    size twoKeyState = 2 ∧
    mapGet (updateCache "b" wb2 twoKeyState).data "a" = none := by
  decide

/-! ### Claim C7 -/

/-- C7: Lookup of a key absent from the index returns the zero value and
`false` and leaves the cache state entirely unchanged (so the size and every
other key's entry and recency position are untouched). -/
theorem c7_lookup_absent_no_effect (now : Int) (city : String) (c : Cache)
    (h : mapGet c.data city = none) :
    (getCachedWeatherData now city c).1 = (zeroWeather, false) ∧
    (getCachedWeatherData now city c).2 = c ∧
    size (getCachedWeatherData now city c).2 = size c := by
  rw [getCached_absent h]
  exact ⟨rfl, rfl, rfl⟩

/-- Witness for C7: looking up "zzz", absent from a one-entry cache. -/
theorem c7_lookup_absent_no_effect_witness :
    mapGet oneKeyState.data "zzz" = none ∧
    ((getCachedWeatherData 0 "zzz" oneKeyState).1 = (zeroWeather, false) ∧
      (getCachedWeatherData 0 "zzz" oneKeyState).2 = oneKeyState ∧
      size (getCachedWeatherData 0 "zzz" oneKeyState).2 = size oneKeyState) :=
  ⟨by decide, c7_lookup_absent_no_effect 0 "zzz" oneKeyState (by decide)⟩

/-! ### Claim C9 -/

/-- C9: the claim says every Lookup and Insert executes under mutual
exclusion with every other Lookup and Insert.  The code violates this:
`getCachedWeatherData` takes only the shared read lock, and under RWMutex
semantics two read-lock holders are not mutually exclusive — even though a
Lookup mutates the cache (here an expired lookup removes the entry, and a
hit reorders the recency list). -/
theorem c9_lookup_not_serialized :
    mutuallyExclusive lookupLockMode lookupLockMode = false ∧
    mutuallyExclusive lookupLockMode insertLockMode = true ∧
    mutuallyExclusive insertLockMode insertLockMode = true ∧
    (getCachedWeatherData 50 "a" oneKeyState).2 ≠ oneKeyState := by
  decide

/-! ### Claim C6 -/

/-- C6: Lookup of a key `city` present in the index (entry node `e`) at
instant `now`: if `now - cachedAt < ttl` the call returns the entry's value
and `true`; otherwise it returns the zero value and `false`, removes the
entry from the index and from the recency list, and both the index size and
the list length drop by exactly one. -/
theorem c6_lookup_present (now : Int) (city : String) (c : Cache) (e : Elem)
    (hInv : Inv c) (he : mapGet c.data city = some e) :
    (now - e.item.data.cacheTime < c.expiry →
      (getCachedWeatherData now city c).1 = (e.item.data, true)) ∧
    (¬ now - e.item.data.cacheTime < c.expiry →
      (getCachedWeatherData now city c).1 = (zeroWeather, false) ∧
      mapGet ((getCachedWeatherData now city c).2).data city = none ∧
      e ∉ ((getCachedWeatherData now city c).2).orderedList ∧
      size ((getCachedWeatherData now city c).2) + 1 = size c ∧
      ((getCachedWeatherData now city c).2).orderedList.length + 1 =
        c.orderedList.length) := by
  have hmem : e ∈ c.orderedList := elem_mem_of_mapGet hInv he
  have herase : (moveToFront e c.orderedList).erase e = c.orderedList.erase e := by
    rw [moveToFront_of_mem hmem]
    exact List.erase_cons_head e _
  constructor
  · intro hv
    rw [getCached_hit he hv]
  · intro hv
    rw [getCached_expired he hv]
    refine ⟨rfl, mapGet_mapDelete_self, ?_, ?_, ?_⟩
    · show e ∉ (moveToFront e c.orderedList).erase e
      rw [herase]
      exact (nodup_orderedList hInv).not_mem_erase
    · exact length_mapDelete_add_one hInv.2.2.1 (by rw [he]; simp)
    · show ((moveToFront e c.orderedList).erase e).length + 1 =
        c.orderedList.length
      rw [herase, List.length_erase_of_mem hmem]
      have := List.length_pos_of_mem hmem
      omega

/-- Witness for C6: a hit on "a" at instant 0 in a fresh one-entry cache. -/
theorem c6_lookup_present_witness :
    Inv oneKeyState ∧
    mapGet oneKeyState.data "a" = some ⟨0, ⟨"a", wa⟩⟩ ∧
    (getCachedWeatherData 0 "a" oneKeyState).1 = (wa, true) :=
  ⟨by decide, by decide,
    (c6_lookup_present 0 "a" oneKeyState ⟨0, ⟨"a", wa⟩⟩ (by decide)
      (by decide)).1 (by decide)⟩

/-! ### Claim C8 -/

/-- C8: Lookup of a present key promotes its node to the head of the recency
list unconditionally, before the expiry check: on a hit the new list is
exactly the promoted list (key at head); on an expired entry the final list
is the promoted list with the node then removed, which nets to plain removal
from the original list (the remove-after-promote order is unobservable). -/
theorem c8_promotion_on_access (now : Int) (city : String) (c : Cache)
    (e : Elem) (hInv : Inv c) (he : mapGet c.data city = some e) :
    (moveToFront e c.orderedList).head? = some e ∧
    (now - e.item.data.cacheTime < c.expiry →
      ((getCachedWeatherData now city c).2).orderedList =
        moveToFront e c.orderedList) ∧
    (¬ now - e.item.data.cacheTime < c.expiry →
      ((getCachedWeatherData now city c).2).orderedList =
        (moveToFront e c.orderedList).erase e ∧
      (moveToFront e c.orderedList).erase e = c.orderedList.erase e) := by
  have hmem : e ∈ c.orderedList := elem_mem_of_mapGet hInv he
  refine ⟨?_, ?_, ?_⟩
  · rw [moveToFront_of_mem hmem]
    rfl
  · intro hv
    rw [getCached_hit he hv]
  · intro hv
    rw [getCached_expired he hv]
    refine ⟨rfl, ?_⟩
    rw [moveToFront_of_mem hmem]
    exact List.erase_cons_head e _

/-- Witness for C8: an expired access to "a" (instant 50, ttl 10) in a
one-entry cache. -/
theorem c8_promotion_on_access_witness :
    Inv oneKeyState ∧
    mapGet oneKeyState.data "a" = some ⟨0, ⟨"a", wa⟩⟩ ∧
    ((moveToFront ⟨0, ⟨"a", wa⟩⟩ oneKeyState.orderedList).head? =
      some ⟨0, ⟨"a", wa⟩⟩ ∧
    ((50:Int) - (cacheItem.mk "a" wa).data.cacheTime < oneKeyState.expiry →
      ((getCachedWeatherData 50 "a" oneKeyState).2).orderedList =
        moveToFront ⟨0, ⟨"a", wa⟩⟩ oneKeyState.orderedList) ∧
    (¬ (50:Int) - (cacheItem.mk "a" wa).data.cacheTime < oneKeyState.expiry →
      ((getCachedWeatherData 50 "a" oneKeyState).2).orderedList =
        (moveToFront ⟨0, ⟨"a", wa⟩⟩ oneKeyState.orderedList).erase
          ⟨0, ⟨"a", wa⟩⟩ ∧
      (moveToFront ⟨0, ⟨"a", wa⟩⟩ oneKeyState.orderedList).erase
          ⟨0, ⟨"a", wa⟩⟩ =
        oneKeyState.orderedList.erase ⟨0, ⟨"a", wa⟩⟩)) :=
  ⟨by decide, by decide,
    c8_promotion_on_access 50 "a" oneKeyState ⟨0, ⟨"a", wa⟩⟩ (by decide)
      (by decide)⟩

/-! ### Claim C10 -/

theorem updateCache_mapGet_self (city : String) (d : CityWeatherData)
    (c : Cache) :
    ∃ e : Elem, mapGet (updateCache city d c).data city = some e ∧
      e.item = ⟨city, d⟩ ∧
      (updateCache city d c).orderedList.head? = some e := by
  simp only [updateCache]
  exact ⟨_, mapGet_mapInsert_self, rfl, rfl⟩

/-- C10: a Lookup of key `city` performed right after `Insert(city, d)`
completes — with the clock still at the instant `d` was captured and a
positive ttl — returns `(d, true)`; the freshly inserted node sits at the
head of the recency list and the index maps `city` to it. -/
theorem c10_insert_then_lookup (city : String) (d : CityWeatherData)
    (c : Cache) (now : Int) (hnow : d.cacheTime = now) (hE : 0 < c.expiry) :
    (getCachedWeatherData now city (updateCache city d c)).1 = (d, true) ∧
    ∃ e : Elem, mapGet (updateCache city d c).data city = some e ∧
      (updateCache city d c).orderedList.head? = some e ∧
      e.item = ⟨city, d⟩ := by
  obtain ⟨e, hget, hitem, hhead⟩ := updateCache_mapGet_self city d c
  have hv : now - e.item.data.cacheTime < (updateCache city d c).expiry := by
    rw [hitem, updateCache_expiry]
    show now - d.cacheTime < c.expiry
    rw [hnow]
    simpa using hE
  rw [getCached_hit hget hv]
  exact ⟨by rw [hitem], e, hget, hhead, hitem⟩

/-- Witness for C10: insert "a" at instant 0 into the empty capacity-2
cache and look it up at instant 0. -/
theorem c10_insert_then_lookup_witness :
    wa.cacheTime = 0 ∧ (0:Int) < (initCache 2 10).expiry ∧
    ((getCachedWeatherData 0 "a" (updateCache "a" wa (initCache 2 10))).1 =
        (wa, true) ∧
      ∃ e : Elem,
        mapGet (updateCache "a" wa (initCache 2 10)).data "a" = some e ∧
        (updateCache "a" wa (initCache 2 10)).orderedList.head? = some e ∧
        e.item = ⟨"a", wa⟩) :=
  ⟨by decide, by decide,
    c10_insert_then_lookup "a" wa (initCache 2 10) 0 (by decide) (by decide)⟩

/-! ### Claim C5 -/

theorem data_eq_nil_of_orderedList_nil {c : Cache} (hInv : Inv c)
    (h : c.orderedList = []) : c.data = [] := by
  refine List.eq_nil_iff_forall_not_mem.mpr ?_
  intro p hp
  have hmem := hInv.2.1 p hp
  rw [h] at hmem
  simp at hmem

theorem length_updateCache_zero {c : Cache} (hms : c.maxSize = 0)
    (hlen : c.orderedList.length ≤ 1) (city : String) (d : CityWeatherData) :
    (updateCache city d c).orderedList.length = 1 := by
  have hb : c.maxSize ≤ c.orderedList.length := by
    rw [hms]
    exact Nat.zero_le _
  simp [updateCache, hb, length_evictOldest]
  omega

theorem updateCache_zero_state {c : Cache} (hInv : Inv c) (hms : c.maxSize = 0)
    (hlen : c.orderedList.length ≤ 1) (city : String) (d : CityWeatherData) :
    ∃ e : Elem, e.item = ⟨city, d⟩ ∧
      (updateCache city d c).orderedList = [e] ∧
      (updateCache city d c).data = [(city, e)] := by
  have hb : c.maxSize ≤ c.orderedList.length := by
    rw [hms]
    exact Nat.zero_le _
  cases hl : c.orderedList with
  | nil =>
    have hdata : c.data = [] := data_eq_nil_of_orderedList_nil hInv hl
    have hevict : evictOldest c = c := by
      unfold evictOldest
      rw [hl]
      simp
    have hupd : updateCache city d c =
        { c with orderedList := [⟨c.nextId, ⟨city, d⟩⟩],
                 data := [(city, ⟨c.nextId, ⟨city, d⟩⟩)],
                 nextId := c.nextId + 1 } := by
      unfold updateCache
      rw [if_pos hb, hevict]
      simp [mapInsert, mapDelete, hdata, hl]
    exact ⟨⟨c.nextId, ⟨city, d⟩⟩, rfl, by rw [hupd], by rw [hupd]⟩
  | cons a l =>
    have hl0 : l = [] := by
      rw [hl] at hlen
      simpa using hlen
    subst hl0
    have hdel : mapDelete c.data a.item.city = [] := by
      refine List.eq_nil_iff_forall_not_mem.mpr ?_
      intro p hp
      obtain ⟨hpm, hpk⟩ := mem_mapDelete.mp hp
      have h2 : p.2 ∈ c.orderedList := hInv.2.1 p hpm
      rw [hl] at h2
      have hpa : p.2 = a := by simpa using h2
      exact hpk (by rw [← hInv.2.2.2.1 p hpm, hpa])
    have hevict : evictOldest c = { c with orderedList := [], data := [] } := by
      unfold evictOldest
      rw [hl]
      simp [hdel]
    have hupd : updateCache city d c =
        { c with orderedList := [⟨c.nextId, ⟨city, d⟩⟩],
                 data := [(city, ⟨c.nextId, ⟨city, d⟩⟩)],
                 nextId := c.nextId + 1 } := by
      unfold updateCache
      rw [if_pos hb, hevict]
      simp [mapInsert, mapDelete]
    exact ⟨⟨c.nextId, ⟨city, d⟩⟩, rfl, by rw [hupd], by rw [hupd]⟩

theorem run_zero_preserves {c : Cache} (ops : List Op) (hInv : Inv c)
    (hms : c.maxSize = 0) (hlen : c.orderedList.length ≤ 1) :
    Inv (run ops c) ∧ (run ops c).maxSize = 0 ∧
      (run ops c).orderedList.length ≤ 1 := by
  induction ops generalizing c with
  | nil => exact ⟨hInv, hms, hlen⟩
  | cons op ops ih =>
    rw [run_cons]
    refine ih (inv_applyOp hInv op) ?_ ?_
    · rw [applyOp_maxSize]
      exact hms
    · cases op with
      | lookup now city => exact le_trans (length_getCached_le now city c) hlen
      | insert city d =>
        have h := length_updateCache_zero hms hlen city d
        show (updateCache city d c).orderedList.length ≤ 1
        rw [h]

/-- C5 counterexample: the claim says that with maxSize = 0 the cache is
always empty after each Insert completes; but from the empty cache a single
Insert leaves one entry, because eviction runs before the new node is
pushed. -/
theorem c5_cache_not_empty_counterexample :
    size (run [Op.insert "a" wa] (initCache 0 10)) = 1 ∧
    (run [Op.insert "a" wa] (initCache 0 10)).orderedList ≠ [] := by
  decide

/-- C5 (amended): with maxSize = 0 every Insert triggers the eviction
routine, eviction removes at most one node per call, no Insert fails, and
after each Insert completes the cache holds exactly one entry — the key just
inserted — rather than being empty. -/
theorem c5_maxSize_zero_one_entry (E : Int) (ops : List Op) (city : String)
    (d : CityWeatherData) :
    size (run (ops ++ [Op.insert city d]) (initCache 0 E)) = 1 ∧
    listKeys (run (ops ++ [Op.insert city d]) (initCache 0 E)) = [city] ∧
    (∀ c : Cache,
      c.orderedList.length ≤ (evictOldest c).orderedList.length + 1) := by
  have hpre := run_zero_preserves (c := initCache 0 E) ops (inv_initCache 0 E)
    rfl (by simp [initCache])
  rw [run_append]
  have hstep : run [Op.insert city d] (run ops (initCache 0 E)) =
      updateCache city d (run ops (initCache 0 E)) := rfl
  rw [hstep]
  obtain ⟨e, hitem, hlist, hdata⟩ :=
    updateCache_zero_state hpre.1 hpre.2.1 hpre.2.2 city d
  refine ⟨?_, ?_, ?_⟩
  · rw [size, hdata]
    rfl
  · rw [listKeys, hlist]
    simp [hitem]
  · intro c
    rw [length_evictOldest]
    omega

end WeatherCache
